import Mathlib

/-!
Verification of the vertex-extraction / block-segmentation pipeline of
`app.py` (PDF cadastral documents → closed polygons).

Embedding conventions:
* a Python vertex tuple `(v, e, n)` becomes the structure `Vertex` with an
  `Int` index and rational coordinates (Python floats are modelled as `ℚ`);
* Python strings are modelled as `List Char`; a nullable table cell is an
  `Option (List Char)`;
* `math.hypot(dx, dy) > thr` is encoded without square roots as
  `thr < 0 ∨ thr ^ 2 < dx ^ 2 + dy ^ 2`, which is equivalent for every
  rational threshold because `hypot` is non-negative and squaring is
  monotone on non-negatives.
-/

set_option maxRecDepth 4000

/-- One vertex record `(v, e, n)`: declared index, easting, northing. -/
structure Vertex where
  idx : Int
  e : ℚ
  n : ℚ
deriving DecidableEq, Repr

/-- The comparison `math.hypot(dx, dy) > thr`, square-root free:
`hypot dx dy ≥ 0`, so the comparison holds iff `thr < 0` or
`thr ^ 2 < dx ^ 2 + dy ^ 2`. -/
def hypotGt (dx dy thr : ℚ) : Bool :=
  decide (thr < 0) || decide (thr ^ 2 < dx ^ 2 + dy ^ 2)

/-- `app.py` line 58: `reinicios = sum(1 for (prev, cur) in
zip(vertices, vertices[1:]) if cur[0] <= prev[0])`. -/
def reinicios (vs : List Vertex) : Nat :=
  (vs.zip vs.tail).countP fun pc => decide (pc.2.idx ≤ pc.1.idx)

/-- The break condition of `app.py` line 69:
`cur_id <= prev_id or (cur_id - prev_id) > salto_max or dist > distance_threshold`. -/
def breakCond (distance_threshold : ℚ) (salto_max : Int) (prev cur : Vertex) : Bool :=
  decide (cur.idx ≤ prev.idx) || decide (salto_max < cur.idx - prev.idx) ||
    hypotGt (cur.e - prev.e) (cur.n - prev.n) distance_threshold

/-- The walk of `app.py` lines 62-75: `current` is the open block,
`prev` the previously seen record; on a break the closed block is emitted
and a fresh block `[cur]` is opened; the final open block is always
emitted (it is never empty). -/
def walkBlocks (distance_threshold : ℚ) (salto_max : Int) :
    Vertex → List Vertex → List Vertex → List (List Vertex)
  | _, current, [] => [current]
  | prev, current, cur :: rest =>
      if breakCond distance_threshold salto_max prev cur then
        current :: walkBlocks distance_threshold salto_max cur [cur] rest
      else
        walkBlocks distance_threshold salto_max cur (current ++ [cur]) rest

/-- `app.py` lines 55-76, `split_into_blocks(vertices, distance_threshold=2000,
salto_max=50)`: empty input yields `[]`; with more than 300 records and zero
reversions the whole sequence is one block; otherwise the walk runs and
blocks shorter than 3 are dropped. -/
def split_into_blocks (vertices : List Vertex) (distance_threshold : ℚ := 2000)
    (salto_max : Int := 50) : List (List Vertex) :=
  match vertices with
  | [] => []
  | v :: rest =>
      if 300 < (v :: rest).length ∧ reinicios (v :: rest) = 0 then
        [v :: rest]
      else
        (walkBlocks distance_threshold salto_max v [v] rest).filter
          fun blk => decide (3 ≤ blk.length)

/-- The blocks produced by the walk of `split_into_blocks` before the
length-≥-3 filter is applied (empty input gives no blocks). -/
def rawBlocks (vertices : List Vertex) (distance_threshold : ℚ) (salto_max : Int) :
    List (List Vertex) :=
  match vertices with
  | [] => []
  | v :: rest => walkBlocks distance_threshold salto_max v [v] rest

/-- One step of the segmentation walk as the specification words it: the
state is `(closed blocks so far, current open block, previous record)`;
on any of the three break conditions the current block is closed and a
fresh block `[cur]` is opened, otherwise `cur` is appended to the current
block. -/
def segStep (distance_threshold : ℚ) (salto_max : Int)
    (st : List (List Vertex) × List Vertex × Vertex) (cur : Vertex) :
    List (List Vertex) × List Vertex × Vertex :=
  if decide (cur.idx ≤ st.2.2.idx) || decide (salto_max < cur.idx - st.2.2.idx) ||
      hypotGt (cur.e - st.2.2.e) (cur.n - st.2.2.n) distance_threshold then
    (st.1 ++ [st.2.1], [cur], cur)
  else
    (st.1, st.2.1 ++ [cur], cur)

/-- The specification's description of the general segmentation algorithm
(section 4.2), written independently of the source's loop shape: fold the
step over the tail, append the final open block, then drop blocks with
fewer than 3 records. -/
def segmentSpec (vertices : List Vertex) (distance_threshold : ℚ)
    (salto_max : Int) : List (List Vertex) :=
  match vertices with
  | [] => []
  | v :: rest =>
      let st := rest.foldl (segStep distance_threshold salto_max) ([], [v], v)
      (st.1 ++ [st.2.1]).filter fun blk => decide (3 ≤ blk.length)

/-- A nullable table cell (Python strings are modelled as `List Char`). -/
abbrev Cell := Option (List Char)

/-- One table row of nullable cells. -/
abbrev Row := List Cell

/-- One extracted table: a list of rows. -/
abbrev Table := List Row

/-- `app.py` line 37: `re.sub(r"[^\d\.Pp]", "", str(cell)) if cell else ""` —
a falsy cell (None or empty) normalises to the empty string, otherwise all
characters except digits, periods and the letters `P`/`p` are stripped. -/
def cleanCell (cell : Cell) : List Char :=
  match cell with
  | none => []
  | some s => s.filter fun c => c.isDigit || c = '.' || c = 'P' || c = 'p'

/-- Full match of `app.py` line 38's pattern `^P?\d+$` (case-insensitive):
an optional leading `P`/`p` followed by one or more digits and nothing else. -/
def isPIndex (s : List Char) : Bool :=
  match s with
  | [] => false
  | c :: rest =>
      if c = 'P' || c = 'p' then !rest.isEmpty && rest.all Char.isDigit
      else (c :: rest).all Char.isDigit

/-- Tail after the maximal leading digit run: empty, or a period followed by
digits only (the `\.?\d*$` part of the numeric patterns). -/
def fracTail : List Char → Bool
  | [] => true
  | '.' :: t => t.all Char.isDigit
  | _ => false

/-- Full match of `^\d{k,}\.?\d*$` (`app.py` lines 39-40 with `k` = 6 or 7):
at least `k` leading digits, then an optional period and trailing digits. -/
def numMatch (k : Nat) (s : List Char) : Bool :=
  decide (k ≤ (s.takeWhile Char.isDigit).length) && fracTail (s.dropWhile Char.isDigit)

/-- Decimal value of a digit string (the behaviour of Python `int` on a
string of digits). -/
def parseNatDigits (s : List Char) : Nat :=
  s.foldl (fun a c => 10 * a + (c.toNat - '0'.toNat)) 0

/-- Python `float` on a string matching `^\d+\.?\d*$` (floats are modelled
exactly, as rationals). -/
def parseFloat (s : List Char) : ℚ :=
  let ip := s.takeWhile Char.isDigit
  match s.dropWhile Char.isDigit with
  | '.' :: frac => (parseNatDigits ip : ℚ) + (parseNatDigits frac : ℚ) / (10 : ℚ) ^ frac.length
  | _ => (parseNatDigits ip : ℚ)

/-- `app.py` line 43: `p_matches[0].replace("P", "").replace("p", "")` —
every `P` and `p` is removed. -/
def stripPp (s : List Char) : List Char :=
  s.filter fun c => !(c = 'P' || c = 'p')

/-- Python `str.isdigit`: true iff the string is non-empty and all digits. -/
def pyIsDigit (s : List Char) : Bool :=
  !s.isEmpty && s.all Char.isDigit

/-- `app.py` lines 36-47 for one row, given `k` records already accumulated:
clean every cell, collect the three candidate classes, and emit a record
iff every class has at least one candidate; the index comes from the first
index candidate (stripped and parsed) or falls back to `k + 1` when the
stripped string is not purely numeric. -/
def processRow (k : Nat) (row : Row) : Option Vertex :=
  if 1 ≤ ((row.map cleanCell).filter isPIndex).length ∧
      1 ≤ ((row.map cleanCell).filter (numMatch 6)).length ∧
      1 ≤ ((row.map cleanCell).filter (numMatch 7)).length then
    some ⟨if pyIsDigit (stripPp ((row.map cleanCell).filter isPIndex).headI) then
            (parseNatDigits (stripPp ((row.map cleanCell).filter isPIndex).headI) : Int)
          else (k + 1 : Int),
          parseFloat ((row.map cleanCell).filter (numMatch 6)).headI,
          parseFloat ((row.map cleanCell).filter (numMatch 7)).headI⟩
  else none

/-- `app.py` lines 33-47 for one table: tables with fewer than 2 rows are
skipped; each row may append one record to the accumulator. -/
def processTable (acc : List Vertex) (table : Table) : List Vertex :=
  if table.length < 2 then acc
  else
    table.foldl (fun a row =>
      match processRow a.length row with
      | some v => a ++ [v]
      | none => a) acc

/-- One page's tables, processed in order. -/
def processPage (acc : List Vertex) (tables : List Table) : List Vertex :=
  tables.foldl processTable acc

/-- A PDF document as the extractor sees it: opening may raise, and each
page's `extract_tables()` either returns a list of tables or raises. -/
structure PDFDoc where
  openErr : Option (List Char)
  pages : List (Except (List Char) (List Table))

/-- The page loop of `app.py` lines 31-47 under the surrounding
`try`/`except`: a page whose `extract_tables()` raises aborts the loop and
the records accumulated so far are what `return vertices` yields. -/
def extractLoop (acc : List Vertex) : List (Except (List Char) (List Table)) → List Vertex
  | [] => acc
  | (Except.error _) :: _ => acc
  | (Except.ok tables) :: rest => extractLoop (processPage acc tables) rest

/-- `app.py` lines 27-50, `extraer_vertices`: `vertices = []` is initialised
before the `try`; if opening raises the list is still empty, and any later
exception leaves the records accumulated so far, which are returned. -/
def extraer_vertices (doc : PDFDoc) : List Vertex :=
  match doc.openErr with
  | some _ => []
  | none => extractLoop [] doc.pages

/-- Coordinates of a block, `app.py` line 97: `[(e, n) for v, e, n in blk]`. -/
def blockCoords (blk : List Vertex) : List (ℚ × ℚ) :=
  blk.map fun v => (v.e, v.n)

/-- `app.py` lines 98-99: `if coords[0] != coords[-1]: coords.append(coords[0])`
(the guards are only reached with non-empty `coords`; an empty list is
returned unchanged). -/
def closeRing (coords : List (ℚ × ℚ)) : List (ℚ × ℚ) :=
  match coords.head?, coords.getLast? with
  | some f, some l => if f ≠ l then coords ++ [f] else coords
  | _, _ => coords

/-- Modelled from the spec: twice the signed planar area of a closed ring —
the shoelace sum over consecutive coordinate pairs. The geometry
collaborator computing `poly.area` (shapely) is external to `src/`. -/
def shoelaceDouble : List (ℚ × ℚ) → ℚ
  | p :: q :: rest => (p.1 * q.2 - q.1 * p.2) + shoelaceDouble (q :: rest)
  | _ => 0

/-- Modelled from the spec: the raw planar ring area the external geometry
collaborator reports (`poly.area`), the absolute shoelace area. -/
def ringArea (coords : List (ℚ × ℚ)) : ℚ :=
  |shoelaceDouble coords| / 2

/-- `app.py` line 108: `areas.append(poly.area / 10000)` — hectares. -/
def areaHa (coords : List (ℚ × ℚ)) : ℚ :=
  ringArea coords / 10000

/-- Return-shape model of `procesar_pdf` (`app.py` lines 81-148): the list of
components of the returned tuple, `none` standing for Python `None`. The
external geometry stage is abstracted by `geomOk`, which says whether at
least one valid, non-empty polygon was built from the blocks. Insufficient
data (line 89) and no valid polygon (line 112) return the 3-tuple
`(None, None, None)`; success (line 148) returns a 4-tuple. -/
def procesarRet (vertices : List Vertex) (geomOk : List (List Vertex) → Bool)
    (distance_threshold : ℚ) : List (Option Unit) :=
  if vertices.length < 3 then [none, none, none]
  else
    let blocks := split_into_blocks vertices distance_threshold 50
    if geomOk blocks then [some (), some (), some (), some ()]
    else [none, none, none]

/-- The Streamlit caller, `app.py` line 160: `gdf, csv_path, geojson_path,
zip_name = procesar_pdf(...)` — Python tuple unpacking succeeds only when
the arity is exactly four, and raises `ValueError` otherwise. -/
def unpack4 (t : List (Option Unit)) :
    Except String (Option Unit × Option Unit × Option Unit × Option Unit) :=
  match t with
  | [a, b, c, d] => Except.ok (a, b, c, d)
  | _ => Except.error "ValueError: not enough values to unpack"

/-- Flattening a filtered list of blocks yields a sublist of flattening the
unfiltered list. -/
theorem flatten_filter_sublist (L : List (List Vertex)) (p : List Vertex → Bool) :
    ((L.filter p).flatten).Sublist L.flatten := by
  induction L with
  | nil => simp
  | cons b L ih =>
      by_cases hb : p b
      · simpa [List.filter_cons, hb] using ih.append_left b
      · simp only [List.filter_cons, hb, Bool.false_eq_true, if_false, List.flatten_cons]
        exact ih.trans (List.sublist_append_right b L.flatten)

/-- A member of a list of blocks is a contiguous run of its flattening. -/
theorem mem_flatten_decomp {b : List Vertex} {L : List (List Vertex)}
    (h : b ∈ L) : ∃ s t, L.flatten = s ++ b ++ t := by
  induction L with
  | nil => cases h
  | cons a L ih =>
      rcases List.mem_cons.mp h with rfl | h
      · exact ⟨[], L.flatten, by simp⟩
      · obtain ⟨s, t, hst⟩ := ih h
        exact ⟨a ++ s, t, by simp [hst]⟩

/-- The walk loses no record: its blocks flatten back to the open block
followed by the unprocessed tail. -/
theorem walkBlocks_flatten (thr : ℚ) (sm : Int) :
    ∀ (rest : List Vertex) (prev : Vertex) (current : List Vertex),
      (walkBlocks thr sm prev current rest).flatten = current ++ rest := by
  intro rest
  induction rest with
  | nil => intro prev current; simp [walkBlocks]
  | cons cur rest ih =>
      intro prev current
      by_cases hb : breakCond thr sm prev cur
      · simp [walkBlocks, hb, ih]
      · simp [walkBlocks, hb, ih]

/-- The specification's fold and the source's loop compute the same block
list: folding `segStep` from state `(done, current, prev)` and appending
the final open block equals `done` followed by the walk. -/
theorem foldl_segStep_walkBlocks (thr : ℚ) (sm : Int) :
    ∀ (rest : List Vertex) (done : List (List Vertex)) (current : List Vertex)
      (prev : Vertex),
      (rest.foldl (segStep thr sm) (done, current, prev)).1 ++
          [(rest.foldl (segStep thr sm) (done, current, prev)).2.1] =
        done ++ walkBlocks thr sm prev current rest := by
  intro rest
  induction rest with
  | nil => intro done current prev; simp [walkBlocks]
  | cons cur rest ih =>
      intro done current prev
      have hs : segStep thr sm (done, current, prev) cur =
          if breakCond thr sm prev cur then (done ++ [current], [cur], cur)
          else (done, current ++ [cur], cur) := rfl
      rw [List.foldl_cons, hs]
      by_cases hb : breakCond thr sm prev cur
      · rw [if_pos hb]
        show _ = done ++ walkBlocks thr sm prev current (cur :: rest)
        rw [walkBlocks, if_pos hb, ih]
        simp
      · rw [if_neg hb]
        show _ = done ++ walkBlocks thr sm prev current (cur :: rest)
        rw [walkBlocks, if_neg hb, ih]

/-- An exception on a later page truncates extraction: pages after the first
failing page contribute nothing, and the accumulated records are returned. -/
theorem extractLoop_error_truncates (e : List Char)
    (rest : List (Except (List Char) (List Table))) :
    ∀ (ps : List (Except (List Char) (List Table))) (acc : List Vertex),
      extractLoop acc (ps ++ Except.error e :: rest) = extractLoop acc ps := by
  intro ps
  induction ps with
  | nil => intro acc; simp [extractLoop]
  | cons p ps ih =>
      intro acc
      cases p with
      | error f => simp [extractLoop]
      | ok tables => simp [extractLoop, ih]

/-- Unfolding equation of `split_into_blocks` on a non-empty list. -/
theorem split_into_blocks_cons (v : Vertex) (rest : List Vertex) (thr : ℚ)
    (sm : Int) :
    split_into_blocks (v :: rest) thr sm =
      if 300 < (v :: rest).length ∧ reinicios (v :: rest) = 0 then
        [v :: rest]
      else
        (walkBlocks thr sm v [v] rest).filter
          fun blk => decide (3 ≤ blk.length) := rfl

/-- Unfolding equation of `segmentSpec` on a non-empty list. -/
theorem segmentSpec_cons (v : Vertex) (rest : List Vertex) (thr : ℚ) (sm : Int) :
    segmentSpec (v :: rest) thr sm =
      ((rest.foldl (segStep thr sm) ([], [v], v)).1 ++
          [(rest.foldl (segStep thr sm) ([], [v], v)).2.1]).filter
        fun blk => decide (3 ≤ blk.length) := rfl

/-- Concrete sequence with declared indices `[1,2,3,1,2,3,4]`, all
coordinates coincident (every consecutive distance is 0). -/
def v7 : List Vertex :=
  [⟨1, 0, 0⟩, ⟨2, 0, 0⟩, ⟨3, 0, 0⟩, ⟨1, 0, 0⟩, ⟨2, 0, 0⟩, ⟨3, 0, 0⟩, ⟨4, 0, 0⟩]

/-- Claim C1: when the input is non-empty and the >300/zero-reversion
short-circuit does not apply, `split_into_blocks` behaves exactly as the
specification's walk: a new block starts exactly when the index fails to
strictly increase, the index jump exceeds `salto_max`, or the euclidean
distance exceeds `distance_threshold` (logical OR of the three checks,
looking back only one record); the closed block is appended to the result
and the fresh block contains only `cur`, otherwise `cur` is appended to
the current open block. -/
theorem claim1_walk_refines_spec (vs : List Vertex) (thr : ℚ) (sm : Int)
    (hne : vs ≠ []) (hsc : ¬(300 < vs.length ∧ reinicios vs = 0)) :
    split_into_blocks vs thr sm = segmentSpec vs thr sm := by
  cases vs with
  | nil => exact absurd rfl hne
  | cons v rest =>
      rw [split_into_blocks_cons, if_neg hsc, segmentSpec_cons,
        foldl_segStep_walkBlocks thr sm rest [] [v] v]
      rfl

/-- Claim C1 witness: the refinement instantiated on the concrete sequence
`v7`, whose short-circuit condition fails. -/
theorem claim1_witness :
    split_into_blocks v7 2000 50 = segmentSpec v7 2000 50 :=
  claim1_walk_refines_spec v7 2000 50 (by decide) (by decide)

/-- Claim C2: segmentation is a partition of an accepted subset of the
input: the concatenation of the returned blocks is an order-preserving
subsequence of the input (so every record lands in at most one block), and
every returned block has at least 3 records. -/
theorem claim2_partition (vs : List Vertex) (thr : ℚ) (sm : Int) :
    ((split_into_blocks vs thr sm).flatten).Sublist vs ∧
      ∀ b ∈ split_into_blocks vs thr sm, 3 ≤ b.length := by
  cases vs with
  | nil => simp [split_into_blocks]
  | cons v rest =>
      rw [split_into_blocks_cons]
      by_cases h : 300 < (v :: rest).length ∧ reinicios (v :: rest) = 0
      · rw [if_pos h]
        refine ⟨by simp, ?_⟩
        intro b hb
        rw [List.mem_singleton] at hb
        subst hb
        have h1 := h.1
        simp only [List.length_cons] at h1 ⊢
        omega
      · rw [if_neg h]
        have hfl : (walkBlocks thr sm v [v] rest).flatten = v :: rest := by
          rw [walkBlocks_flatten]; rfl
        refine ⟨?_, ?_⟩
        · have hsub := flatten_filter_sublist (walkBlocks thr sm v [v] rest)
            fun blk => decide (3 ≤ blk.length)
          rwa [hfl] at hsub
        · intro b hb
          exact of_decide_eq_true (List.mem_filter.mp hb).2

/-- Claim C2 witness: the partition facts instantiated on `v7`; the first
returned block has length ≥ 3. -/
theorem claim2_witness :
    3 ≤ ([⟨1, 0, 0⟩, ⟨2, 0, 0⟩, ⟨3, 0, 0⟩] : List Vertex).length :=
  (claim2_partition v7 2000 50).2 [⟨1, 0, 0⟩, ⟨2, 0, 0⟩, ⟨3, 0, 0⟩]
    (by norm_num [split_into_blocks, v7, reinicios, walkBlocks, breakCond, hypotGt])

/-- Claim C3: with more than 300 records and zero reversions the whole
sequence is returned as a single block, regardless of distances and index
jumps. -/
theorem claim3_shortcircuit (vs : List Vertex) (thr : ℚ) (sm : Int)
    (hlen : 300 < vs.length) (hrev : reinicios vs = 0) :
    split_into_blocks vs thr sm = [vs] := by
  cases vs with
  | nil => simp at hlen
  | cons v rest => rw [split_into_blocks_cons, if_pos ⟨hlen, hrev⟩]

/-- Concrete sequence of 301 records with strictly increasing indices
`1..301`; the step from the first to the second record has planar distance
1000000, far above the default threshold 2000. -/
def longList : List Vertex :=
  (List.range 301).map fun i => ⟨(i : Int) + 1, if i = 0 then 0 else 1000000, 0⟩

/-- Claim C3 witness: 301 strictly-increasing-index records come back as one
block of all 301 records even though one consecutive distance exceeds the
threshold. -/
theorem claim3_witness :
    split_into_blocks longList 2000 50 = [longList] :=
  claim3_shortcircuit longList 2000 50 (by decide) (by decide)

/-- Claim C8: indices `[1,2,3,1,2,3,4]` with all consecutive distances under
threshold split into exactly the two blocks `[1,2,3]` and `[1,2,3,4]`. -/
theorem claim8_monotonicity_break :
    split_into_blocks v7 2000 50 =
      [[⟨1, 0, 0⟩, ⟨2, 0, 0⟩, ⟨3, 0, 0⟩],
       [⟨1, 0, 0⟩, ⟨2, 0, 0⟩, ⟨3, 0, 0⟩, ⟨4, 0, 0⟩]] := by
  norm_num [split_into_blocks, v7, reinicios, walkBlocks, breakCond, hypotGt]

/-- Claim C10: every block returned by `split_into_blocks` is a contiguous
slice of the input, and before the length-≥-3 filter the walk's blocks
concatenate to exactly the whole input, nothing dropped or reordered. -/
theorem claim10_contiguous (vs : List Vertex) (thr : ℚ) (sm : Int) :
    (rawBlocks vs thr sm).flatten = vs ∧
      ∀ b ∈ split_into_blocks vs thr sm, ∃ s t, vs = s ++ b ++ t := by
  cases vs with
  | nil => exact ⟨rfl, by simp [split_into_blocks]⟩
  | cons v rest =>
      refine ⟨by rw [rawBlocks, walkBlocks_flatten]; rfl, ?_⟩
      intro b hb
      rw [split_into_blocks_cons] at hb
      by_cases h : 300 < (v :: rest).length ∧ reinicios (v :: rest) = 0
      · rw [if_pos h, List.mem_singleton] at hb
        subst hb
        exact ⟨[], [], by simp⟩
      · rw [if_neg h] at hb
        have hmem := List.mem_of_mem_filter hb
        obtain ⟨s, t, hst⟩ := mem_flatten_decomp hmem
        have hfl : (walkBlocks thr sm v [v] rest).flatten = v :: rest := by
          rw [walkBlocks_flatten]; rfl
        exact ⟨s, t, by rw [← hfl, hst]⟩

/-- Claim C10 witness: the first block returned on `v7` is a contiguous
slice of `v7`. -/
theorem claim10_witness :
    ∃ s t, v7 = s ++ [⟨1, 0, 0⟩, ⟨2, 0, 0⟩, ⟨3, 0, 0⟩] ++ t :=
  (claim10_contiguous v7 2000 50).2 [⟨1, 0, 0⟩, ⟨2, 0, 0⟩, ⟨3, 0, 0⟩]
    (by norm_num [split_into_blocks, v7, reinicios, walkBlocks, breakCond, hypotGt])

/-- Claim C4 context: on fewer than 3 extracted records `procesar_pdf`
returns the 3-tuple `(None, None, None)` while the Streamlit caller
unpacks four values, so the unpacking raises `ValueError` — the claim's
"not a crash" fails on the code. -/
theorem claim4_insufficient_data_crash (vs : List Vertex)
    (geomOk : List (List Vertex) → Bool) (thr : ℚ) (h : vs.length < 3) :
    unpack4 (procesarRet vs geomOk thr) =
      Except.error "ValueError: not enough values to unpack" := by
  unfold procesarRet
  rw [if_pos h]
  rfl

/-- Claim C4 witness: a document yielding zero records makes the caller's
four-way unpack raise. -/
theorem claim4_witness :
    ([] : List Vertex).length < 3 ∧
      unpack4 (procesarRet [] (fun _ => true) 2000) =
        Except.error "ValueError: not enough values to unpack" :=
  ⟨by decide, claim4_insufficient_data_crash [] (fun _ => true) 2000 (by decide)⟩

/-- A header-like row whose cells normalise to nothing useful. -/
def headerRow : Row := [some ['V', 'E', 'R'], none, none]

/-- A well-formed data row: index cell `P1`, easting `123456`, northing
`1234567`. -/
def goodRow : Row :=
  [some ['P', '1'], some ['1', '2', '3', '4', '5', '6'],
   some ['1', '2', '3', '4', '5', '6', '7']]

/-- A document whose first page parses one record and whose second page's
`extract_tables()` raises. -/
def failDoc : PDFDoc :=
  ⟨none, [Except.ok [[headerRow, goodRow]], Except.error ['b', 'o', 'o', 'm']]⟩

/-- Claim C5 counterexample: `failDoc` fails mid-extraction (its second page
raises), yet `extraer_vertices` returns the one record parsed before the
failure — a partial result, not the empty one the claim requires. -/
theorem claim5_counterexample :
    failDoc.pages.getLast? = some (Except.error ['b', 'o', 'o', 'm']) ∧
      extraer_vertices failDoc =
        [⟨1, ((123456 : Nat) : ℚ), ((1234567 : Nat) : ℚ)⟩] := by
  refine ⟨rfl, ?_⟩
  decide

/-- Claim C5 (amended): if opening the PDF fails the extractor returns the
empty list; if an exception is raised at a later page, it returns exactly
the records accumulated from the pages before the failing one (a possibly
partial result), and pages after the failure contribute nothing. -/
theorem claim5_amended_failure_truncates :
    (∀ err pages, extraer_vertices ⟨some err, pages⟩ = []) ∧
      (∀ ps e rest, extraer_vertices ⟨none, ps ++ Except.error e :: rest⟩ =
          extraer_vertices ⟨none, ps⟩) := by
  refine ⟨fun err pages => rfl, fun ps e rest => ?_⟩
  show extractLoop [] (ps ++ Except.error e :: rest) = extractLoop [] ps
  exact extractLoop_error_truncates e rest ps []

/-- Claim C6: every emitted record's index is the first index candidate with
its `P`/`p` letters stripped and parsed as an integer, falling back to the
running count plus one when the stripped candidate is not purely numeric. -/
theorem claim6_index_rule (k : Nat) (row : Row) (v : Vertex)
    (h : processRow k row = some v) :
    v.idx =
      if pyIsDigit (stripPp ((row.map cleanCell).filter isPIndex).headI) then
        (parseNatDigits (stripPp ((row.map cleanCell).filter isPIndex).headI) : Int)
      else (k + 1 : Int) := by
  simp only [processRow] at h
  split at h
  · rw [Option.some.injEq] at h
    rw [← h]
  · exact absurd h (by simp)

/-- Claim C6 witness: the rule instantiated on the concrete row `goodRow`
at count 0; the index cell `P1` strips to `1` and parses to index 1. -/
theorem claim6_witness :
    (⟨1, ((123456 : Nat) : ℚ), ((1234567 : Nat) : ℚ)⟩ : Vertex).idx =
      if pyIsDigit (stripPp ((goodRow.map cleanCell).filter isPIndex).headI) then
        (parseNatDigits (stripPp ((goodRow.map cleanCell).filter isPIndex).headI) : Int)
      else ((0 : Nat) + 1 : Int) :=
  claim6_index_rule 0 goodRow ⟨1, ((123456 : Nat) : ℚ), ((1234567 : Nat) : ℚ)⟩
    (by decide)

/-- Evaluation of `closeRing` once the head and last coordinates are known. -/
theorem closeRing_spec (coords : List (ℚ × ℚ)) (f l : ℚ × ℚ)
    (hf : coords.head? = some f) (hl : coords.getLast? = some l) :
    closeRing coords = if f ≠ l then coords ++ [f] else coords := by
  unfold closeRing
  rw [hf, hl]

/-- Claim C7: the ring-closing step appends the first coordinate pair iff
the first and last pairs differ, and closing is idempotent: closing an
already-closed list leaves it unchanged. -/
theorem claim7_ring_closure (coords : List (ℚ × ℚ)) :
    closeRing (closeRing coords) = closeRing coords ∧
      ∀ f l, coords.head? = some f → coords.getLast? = some l →
        (closeRing coords = coords ++ [f] ↔ f ≠ l) := by
  constructor
  · cases coords with
    | nil => rfl
    | cons x xs =>
        have hl := List.getLast?_eq_getLast (x :: xs) (by simp)
        have hc := closeRing_spec (x :: xs) x ((x :: xs).getLast (by simp)) rfl hl
        by_cases hxl : x = (x :: xs).getLast (by simp)
        · rw [hc, if_neg (by simpa using hxl), hc, if_neg (by simpa using hxl)]
        · rw [hc, if_pos hxl]
          rw [closeRing_spec ((x :: xs) ++ [x]) x x rfl (List.getLast?_concat _),
            if_neg (by simp)]
  · intro f l hf hl
    rw [closeRing_spec coords f l hf hl]
    by_cases hfl : f = l
    · rw [if_neg (by simpa using hfl)]
      constructor
      · intro hEq
        have hlen := congrArg List.length hEq
        simp at hlen
      · intro hne
        exact absurd hfl hne
    · rw [if_pos hfl]
      simp [hfl]

/-- Claim C7 witness: an open triangle gets its first pair appended; the
result is unchanged by a second closing pass. -/
theorem claim7_witness :
    closeRing (closeRing [((0 : ℚ), (0 : ℚ)), (1, 0), (1, 1)]) =
        closeRing [((0 : ℚ), (0 : ℚ)), (1, 0), (1, 1)] ∧
      (closeRing [((0 : ℚ), (0 : ℚ)), (1, 0), (1, 1)] =
          [((0 : ℚ), (0 : ℚ)), (1, 0), (1, 1)] ++ [(0, 0)] ↔
        ((0 : ℚ), (0 : ℚ)) ≠ ((1 : ℚ), (1 : ℚ))) :=
  ⟨(claim7_ring_closure [((0 : ℚ), (0 : ℚ)), (1, 0), (1, 1)]).1,
   (claim7_ring_closure [((0 : ℚ), (0 : ℚ)), (1, 0), (1, 1)]).2 (0, 0) (1, 1) rfl rfl⟩

/-- The square ring of the specification's area test, coordinates in
meters. -/
def sqRing : List (ℚ × ℚ) := [(0, 0), (100, 0), (100, 100), (0, 100)]

/-- Claim C9: the reported hectare area is the raw planar ring area divided
by 10000, and the closed 100 m × 100 m square yields exactly 1 ha. -/
theorem claim9_area_scale :
    (∀ coords, areaHa coords = ringArea coords / 10000) ∧
      areaHa (closeRing sqRing) = 1 := by
  refine ⟨fun _ => rfl, ?_⟩
  norm_num [sqRing, closeRing, areaHa, ringArea, shoelaceDouble]
